import Mathlib

/-!
# Verification of the IKEA browser client library (`ikea_lib.py`)

A shallow embedding of `src/portable/extensions/blender_org/ikea_browser/ikea_lib.py`.

Pure string helpers (`is_item_no`, `compact_item_no`, `format_item_no`) become
pure Lean functions.  The stateful client (`IkeaApiWrapper`) becomes explicit
state passing over a state record `St` holding the region fields, the shared
mutable default-headers dictionary of `_get`, the on-disk cache (an association
list from path strings to file contents) and the log of issued HTTP requests.
The network is a deterministic oracle `Net : Request → NetResult`.
Python exceptions become `Except Err`; `json.loads`/`json.dumps` are modelled
abstractly by a `Data` type that is either well-formed JSON or raw bytes.
-/

namespace IkeaLib

/-- JSON values, as produced by `json.loads`. -/
inductive Json where
  | null : Json
  | bool (b : Bool) : Json
  | num (n : Int) : Json
  | str (s : String) : Json
  | arr (xs : List Json) : Json
  | obj (fields : List (String × Json)) : Json

/-- Bytes on the wire / in a cache file: either the serialization of a JSON
value (parseable by `json.loads`) or raw non-JSON bytes. -/
inductive Data where
  | json (j : Json) : Data
  | raw (s : String) : Data

/-- Python exceptions that the library can raise. `ikea` is `IkeaException`;
`key` is `KeyError`; `jsonDecode` is `json.JSONDecodeError`; `typeError`
stands for `TypeError`-like failures on ill-typed JSON; `fsError` for
filesystem read failures. -/
inductive Err where
  | ikea (msg : String) : Err
  | key (k : String) : Err
  | jsonDecode : Err
  | typeError : Err
  | fsError : Err
deriving DecidableEq

/-- Is the error the library's single client-error kind (`IkeaException`)? -/
def isIkea : Err → Bool
  | .ikea _ => true
  | _ => false

/-- `json.loads`: raw bytes fail to parse. -/
def json_loads : Data → Except Err Json
  | .json j => .ok j
  | .raw _ => .error .jsonDecode

/-- Python `d[k]` on a parsed JSON value: `KeyError` when the key is absent,
a type error when the value is not an object. -/
def jsonGet : Json → String → Except Err Json
  | .obj fields, k =>
    match fields.lookup k with
    | some v => .ok v
    | none => .error (.key k)
  | _, _ => .error .typeError

/-- Python `k in d` on a parsed JSON value. -/
def jsonHas (j : Json) (k : String) : Bool :=
  match j with
  | .obj fields => (fields.lookup k).isSome
  | _ => false

/-- Python truthiness of a JSON value (`if not x`). -/
def pyTruthy : Json → Bool
  | .null => false
  | .bool b => b
  | .num n => n != 0
  | .str s => s != ""
  | .arr xs => !xs.isEmpty
  | .obj fields => !fields.isEmpty

/-- Python dict assignment `d[k] = v` on an association list: replace the
first binding of `k`, else append. -/
def alistSet {β : Type} : List (String × β) → String → β → List (String × β)
  | [], k, v => [(k, v)]
  | (k', v') :: rest, k, v =>
    if k' = k then (k, v) :: rest else (k', v') :: alistSet rest k v

/-- Does `n` occur at the head of `h`? (helper for substring search) -/
def startsWithList : List Char → List Char → Bool
  | [], _ => true
  | _ :: _, [] => false
  | a :: n', b :: h' => a == b && startsWithList n' h'

/-- Does `n` occur as a contiguous run inside `h`? -/
def containsList (n : List Char) : List Char → Bool
  | [] => startsWithList n []
  | c :: h' => startsWithList n (c :: h') || containsList n h'

/-- Python `needle in hay` on strings. -/
def strContains (hay needle : String) : Bool :=
  containsList needle.data hay.data

/-! ## The pure string helpers -/

/-- `re.sub(r"[^0-9]", "", ·)` on the character list: every character matching
`[^0-9]` is replaced by the empty string. -/
def subNonDigit : List Char → List Char
  | [] => []
  | c :: l => if c.isDigit then c :: subNonDigit l else subNonDigit l

/-- `compact_item_no`: strip every non-digit character. -/
def compact_item_no (s : String) : String :=
  String.mk (subNonDigit s.data)

/-- Python slice `l[a:b]` (with `0 ≤ a ≤ b`) on a character list. -/
def sliceList (l : List Char) (a b : Nat) : List Char :=
  (l.drop a).take (b - a)

/-- `format_item_no`: compact, then `s[0:3] + "." + s[3:6] + "." + s[6:8]`. -/
def format_item_no (s : String) : String :=
  let t := (compact_item_no s).data
  String.mk (sliceList t 0 3) ++ "." ++ String.mk (sliceList t 3 6)
    ++ "." ++ String.mk (sliceList t 6 8)

/-- Consume exactly `n` digit characters from the front.  `\d` is modelled
as the ASCII digits 0-9 (Python's `\d` additionally matches other Unicode
decimal digits; no claim hinges on those). -/
def consumeDigits : Nat → List Char → Option (List Char)
  | 0, l => some l
  | _ + 1, [] => none
  | n + 1, c :: l => if c.isDigit then consumeDigits n l else none

/-- Consume the regex `\.?`: one dot if present (deterministic here, since
what must follow is a digit and a digit is never a dot). -/
def consumeOptDot : List Char → List Char
  | [] => []
  | c :: l => if c = '.' then l else c :: l

/-- Does the whole character list match `\d{3}\.?\d{3}\.?\d{2}`? -/
def itemNoCore (l : List Char) : Bool :=
  match consumeDigits 3 l with
  | none => false
  | some l1 =>
    match consumeDigits 3 (consumeOptDot l1) with
    | none => false
    | some l3 =>
      match consumeDigits 2 (consumeOptDot l3) with
      | none => false
      | some l5 => l5.isEmpty

/-- `is_item_no`: `re.match(r"^\d{3}\.?\d{3}\.?\d{2}$", s)`.  In Python `$`
matches at the end of the string or just before a single newline at the end,
so a trailing `'\n'` is also accepted. -/
def is_item_no (s : String) : Bool :=
  itemNoCore s.data ||
    (match s.data.getLast? with
     | some c => c = '\n' && itemNoCore s.data.dropLast
     | none => false)

/-- The spec's reading of the predicate: a full match of
`\d{3}\.?\d{3}\.?\d{2}` against the entire string, nothing more. -/
def fullMatchItemNo (s : String) : Bool :=
  itemNoCore s.data

/-! ## The stateful client -/

/-- The fixed client identifier sent as `X-Client-Id`. -/
def CLIENT_ID : String := "4863e7d2-1428-4324-890b-ae5dede24fc6"

/-- The fixed descriptive `User-Agent` string. -/
def USER_AGENT : String :=
  "Blender IKEA Browser ( https://github.com/shish/blender-ikea-browser/ )"

/-- One GET request as put on the wire: URL, query parameters, and the
headers actually sent. -/
structure Request where
  url : String
  params : List (String × String)
  headers : List (String × String)

/-- What the network does with a request: an HTTP response with a status
code and a body, or a transport-level failure (raised from `http.client`). -/
inductive NetResult where
  | ok (status : Nat) (body : Data) : NetResult
  | transportErr : NetResult

/-- A deterministic network oracle. -/
def Net : Type := Request → NetResult

/-- The mutable state of an `IkeaApiWrapper` plus its environment: the region
fields and cache root set in `__init__`, the two shared mutable default
dicts of the `headers` parameters (Python creates one default-dict object
per function: `_get` has its own, used when `_get` is called without
`headers=`; `_get_json` has its own, which it passes explicitly to `_get`
so that `_get`'s in-place mutation lands on it), the filesystem cache
(path ↦ file contents), and the log of requests issued so far. -/
structure St where
  country : String
  language : String
  cacheDir : String
  getDefaultHeaders : List (String × String)
  getJsonDefaultHeaders : List (String × String)
  cache : List (String × Data)
  requests : List Request

/-- `IkeaApiWrapper.__init__`: region fields set, cache root `./cache`,
fresh empty default-headers dict, and (for the environment) an empty cache
and request log. -/
def initSt (country language : String) : St :=
  { country := country, language := language, cacheDir := "./cache",
    getDefaultHeaders := [], getJsonDefaultHeaders := [],
    cache := [], requests := [] }

/-- `self.cache_dir / itemNo / fname` as a path string. -/
def cachePath (σ : St) (itemNo fname : String) : String :=
  σ.cacheDir ++ "/" ++ itemNo ++ "/" ++ fname

/-- Which dict object arrives in `_get`'s `headers` parameter: `_get`'s own
default dict (call site wrote no `headers=`), `_get_json`'s default dict
(passed explicitly by `_get_json` when ITS call site wrote no `headers=`),
or some other explicit dict that no state tracks. -/
inductive HeadersSrc where
  | getDefault : HeadersSrc
  | getJsonDefault : HeadersSrc
  | explicit (h : List (String × String)) : HeadersSrc

/-- `IkeaApiWrapper._get`.  The `headers` dict identified by `src` is used
and — for a web-api URL — mutated in place, so the mutation persists in
whichever shared default dict it came from.  The request is logged, then
the oracle answers; a non-2xx status or a transport failure is wrapped
into `IkeaException` by the function's own `try/except`. -/
def _get (net : Net) (url : String) (params : List (String × String))
    (src : HeadersSrc) (σ : St) :
    Except Err Data × St :=
  let h0 := match src with
    | .getDefault => σ.getDefaultHeaders
    | .getJsonDefault => σ.getJsonDefaultHeaders
    | .explicit h => h
  let isWebApi := strContains url "web-api.ikea.com"
  let h1 := if isWebApi then
      alistSet (alistSet h0 "X-Client-Id" CLIENT_ID) "User-Agent" USER_AGENT
    else h0
  let σ1 := match src with
    | .getDefault => { σ with getDefaultHeaders := h1 }
    | .getJsonDefault => { σ with getJsonDefaultHeaders := h1 }
    | .explicit _ => σ
  let σ2 := { σ1 with requests := σ1.requests ++ [⟨url, params, h1⟩] }
  match net ⟨url, params, h1⟩ with
  | .transportErr => (.error (.ikea ("Error fetching " ++ url)), σ2)
  | .ok status body =>
    if status < 200 ∨ 300 ≤ status then
      (.error (.ikea ("Error fetching " ++ url)), σ2)
    else
      (.ok body, σ2)

/-- The headers dict `_get_json` hands to `_get`: with no `headers=` at
`_get_json`'s call site, `_get_json`'s OWN default dict (never `_get`'s). -/
def jsonHeadersSrc : Option (List (String × String)) → HeadersSrc
  | none => .getJsonDefault
  | some h => .explicit h

/-- `IkeaApiWrapper._get_json`: `_get` then `json.loads`, with no `try` of
its own — a parse failure propagates raw. -/
def _get_json (net : Net) (url : String) (params : List (String × String))
    (headersArg : Option (List (String × String))) (σ : St) :
    Except Err Json × St :=
  match _get net url params (jsonHeadersSrc headersArg) σ with
  | (.error e, σ') => (.error e, σ')
  | (.ok d, σ') =>
    match json_loads d with
    | .error e => (.error e, σ')
    | .ok j => (.ok j, σ')

/-- The URL `get_exists` fetches. -/
def existsUrl (σ : St) (itemNo : String) : String :=
  "https://web-api.ikea.com/" ++ σ.country ++ "/" ++ σ.language
    ++ "/rotera/data/exists/" ++ itemNo ++ "/"

/-- The cache-or-download phase of `get_exists` (its `if not
cache_path.exists():` block, whose `try/except` wraps any failure into
`IkeaException`). -/
def get_exists_fetch (net : Net) (σ : St) (itemNo path : String) :
    Except Err Unit × St :=
  match σ.cache.lookup path with
  | some _ => (.ok (), σ)
  | none =>
    match _get net (existsUrl σ itemNo) [] .getDefault σ with
    | (.error _, σ') =>
      (.error (.ikea ("Error checking model existence for #" ++ itemNo)), σ')
    | (.ok d, σ') =>
      (.ok (), { σ' with cache := alistSet σ'.cache path d })

/-- The final `json.loads(cache_path.read_text())["exists"]` of `get_exists`
(outside the `try/except`). -/
def readExistsFile (σ : St) (path : String) : Except Err Json :=
  match σ.cache.lookup path with
  | none => .error .fsError
  | some d =>
    match json_loads d with
    | .error e => .error e
    | .ok j => jsonGet j "exists"

/-- `IkeaApiWrapper.get_exists`: cache-or-download, then parse the cached
file. -/
def get_exists (net : Net) (σ : St) (itemNo : String) : Except Err Json × St :=
  let path := cachePath σ itemNo "exists.json"
  match get_exists_fetch net σ itemNo path with
  | (.error e, σ') => (.error e, σ')
  | (.ok _, σ') => (readExistsFile σ' path, σ')

/-- The URL `get_pip` fetches (note `itemNo[5:]` in the product path). -/
def pipUrl (σ : St) (itemNo : String) : String :=
  "https://www.ikea.com/" ++ σ.country ++ "/" ++ σ.language ++ "/products/"
    ++ String.mk (itemNo.data.drop 5) ++ "/" ++ itemNo ++ ".json"

/-- The cache-or-download phase of `get_pip` (its `if not
cache_path.exists():` block, whose `try/except` wraps any failure into
`IkeaException`). -/
def get_pip_fetch (net : Net) (σ : St) (itemNo path : String) :
    Except Err Unit × St :=
  match σ.cache.lookup path with
  | some _ => (.ok (), σ)
  | none =>
    match _get_json net (pipUrl σ itemNo) [] none σ with
    | (.error _, σ') =>
      (.error (.ikea ("Error downloading PIP for #" ++ itemNo)), σ')
    | (.ok j, σ') =>
      (.ok (), { σ' with cache := alistSet σ'.cache path (.json j) })

/-- The final `json.loads(cache_path.read_text())` of `get_pip` (outside the
`try/except`). -/
def readJsonFile (σ : St) (path : String) : Except Err Json :=
  match σ.cache.lookup path with
  | none => .error .fsError
  | some d => json_loads d

/-- `IkeaApiWrapper.get_pip`: cache-or-download, then parse the cached
file. -/
def get_pip (net : Net) (σ : St) (itemNo : String) : Except Err Json × St :=
  let path := cachePath σ itemNo "pip.json"
  match get_pip_fetch net σ itemNo path with
  | (.error e, σ') => (.error e, σ')
  | (.ok _, σ') => (readJsonFile σ' path, σ')

/-- `IkeaApiWrapper.get_thumbnail`: cache-or-fetch the given URL into
`thumbnail.jpg` (failures wrapped), then return the cache path string. -/
def get_thumbnail (net : Net) (σ : St) (itemNo url : String) :
    Except Err String × St :=
  let path := cachePath σ itemNo "thumbnail.jpg"
  match σ.cache.lookup path with
  | some _ => (.ok path, σ)
  | none =>
    match _get net url [] .getDefault σ with
    | (.error _, σ') =>
      (.error (.ikea ("Error downloading thumbnail for #" ++ itemNo)), σ')
    | (.ok d, σ') =>
      (.ok path, { σ' with cache := alistSet σ'.cache path d })

/-- The model-metadata URL `get_model` fetches. -/
def modelMetaUrl (σ : St) (itemNo : String) : String :=
  "https://web-api.ikea.com/" ++ σ.country ++ "/" ++ σ.language
    ++ "/rotera/data/model/" ++ itemNo ++ "/"

/-- The body of `get_model`'s `try` block: the `get_exists` check, the
model-metadata fetch, the binary fetch of `rotera_data["modelUrl"]`, and the
write to `model.glb`. -/
def get_model_fetch (net : Net) (σ : St) (itemNo path : String) :
    Except Err Unit × St :=
  match get_exists net σ itemNo with
  | (.error e, σ') => (.error e, σ')
  | (.ok v, σ') =>
    if pyTruthy v then
      match _get_json net (modelMetaUrl σ itemNo) [] none σ' with
      | (.error e, σ2) => (.error e, σ2)
      | (.ok j, σ2) =>
        match jsonGet j "modelUrl" with
        | .error e => (.error e, σ2)
        | .ok (.str u) =>
          match _get net u [] .getDefault σ2 with
          | (.error e, σ3) => (.error e, σ3)
          | (.ok d, σ3) =>
            (.ok (), { σ3 with cache := alistSet σ3.cache path d })
        | .ok _ => (.error .typeError, σ2)
    else
      (.error (.ikea ("No model available for #" ++ itemNo)), σ')

/-- `IkeaApiWrapper.get_model`: on a cache miss run the `try` block, any
failure of which is wrapped into `IkeaException`; return the cache path. -/
def get_model (net : Net) (σ : St) (itemNo : String) : Except Err String × St :=
  let path := cachePath σ itemNo "model.glb"
  match σ.cache.lookup path with
  | some _ => (.ok path, σ)
  | none =>
    match get_model_fetch net σ itemNo path with
    | (.error _, σ') =>
      (.error (.ikea ("Error downloading model for #" ++ itemNo)), σ')
    | (.ok _, σ') => (.ok path, σ')

/-! ## `search` -/

/-- The search endpoint URL. -/
def searchUrl (σ : St) : String :=
  "https://sik.search.blue.cdtapps.com/" ++ σ.country ++ "/" ++ σ.language
    ++ "/search-result-page"

/-- The query parameters `search` builds for a query string. -/
def searchParams (query : String) : List (String × String) :=
  let params := [("types", "PRODUCT"), ("q", query), ("size", "24"),
                 ("c", "sr"), ("v", "20210322")]
  if is_item_no query then
    alistSet params "size" "1"
  else
    alistSet (alistSet params "autocorrect" "true")
      "subcategories-style" "tree-navigation"

/-- The required-fields check of the `search` result loop:

    for field in {"itemNo", "mainImageUrl", "mainImageAlt", "pipUrl"}:
        if field not in p:
            name = p["name"]   # ← KeyError when name is absent
            valid = False

Returns the `valid` flag, or raises `p["name"]`'s `KeyError`. -/
def checkFieldsAux (p : Json) : List String → Bool → Except Err Bool
  | [], valid => .ok valid
  | f :: fs, valid =>
    if jsonHas p f then checkFieldsAux p fs valid
    else
      match jsonGet p "name" with
      | .error e => .error e
      | .ok _ => checkFieldsAux p fs false

/-- The four fields the `search` loop requires of each product. -/
def requiredFields : List String :=
  ["itemNo", "mainImageUrl", "mainImageAlt", "pipUrl"]

/-- `checkFieldsAux` over the four required fields. -/
def checkFields (p : Json) : Except Err Bool :=
  checkFieldsAux p requiredFields true

/-- The result entry `search` appends for a valid product. -/
def mkEntry (p : Json) : Except Err Json := do
  let itemNoJson ← jsonGet p "itemNo"
  let n ← jsonGet p "name"
  let miu ← jsonGet p "mainImageUrl"
  let mia ← jsonGet p "mainImageAlt"
  let pu ← jsonGet p "pipUrl"
  pure (.obj [("itemNo", itemNoJson), ("name", n), ("mainImageUrl", miu),
              ("mainImageAlt", mia), ("pipUrl", pu)])

/-- The per-item loop of `search` (runs after the fetch, outside its
`try/except`): field check, then the `get_exists` availability check, then
the result entry. -/
def processItems (net : Net) (σ : St) :
    List Json → List Json → Except Err (List Json) × St
  | [], acc => (.ok acc, σ)
  | i :: rest, acc =>
    match jsonGet i "product" with
    | .error e => (.error e, σ)
    | .ok p =>
      match checkFields p with
      | .error e => (.error e, σ)
      | .ok valid =>
        if valid then
          match jsonGet p "itemNo" with
          | .error e => (.error e, σ)
          | .ok (.str itemNo) =>
            match get_exists net σ itemNo with
            | (.error e, σ2) => (.error e, σ2)
            | (.ok v, σ2) =>
              if pyTruthy v then
                match mkEntry p with
                | .error e => (.error e, σ2)
                | .ok entry => processItems net σ2 rest (acc ++ [entry])
              else
                match jsonGet p "name" with
                | .error e => (.error e, σ2)
                | .ok _ => processItems net σ2 rest acc
          | .ok _ => (.error .typeError, σ)
        else processItems net σ rest acc

/-- Navigate `searchResultPage.products.main.items` (outside the
`try/except`: a missing key raises a raw `KeyError`). -/
def searchItems (j : Json) : Except Err Json := do
  let a ← jsonGet j "searchResultPage"
  let b ← jsonGet a "products"
  let c ← jsonGet b "main"
  jsonGet c "items"

/-- `IkeaApiWrapper.search`: build the parameters, fetch (failures wrapped
into `IkeaException`), then parse the result tree and run the item loop. -/
def search (net : Net) (σ : St) (query : String) :
    Except Err (List Json) × St :=
  match _get_json net (searchUrl σ) (searchParams query) none σ with
  | (.error _, σ') =>
    (.error (.ikea ("Error searching for " ++ query)), σ')
  | (.ok j, σ') =>
    match searchItems j with
    | .error e => (.error e, σ')
    | .ok (.arr items) => processItems net σ' items []
    | .ok _ => (.error .typeError, σ')

/-! ## Specification-side predicates and fixtures -/

/-- The two region fields and the cache root, the data the spec calls the
region context: `σ'` agrees with `σ` on all three. -/
def regionEq (σ σ' : St) : Prop :=
  σ'.country = σ.country ∧ σ'.language = σ.language ∧ σ'.cacheDir = σ.cacheDir

/-- The declarative shape behind `\d{3}\.?\d{3}\.?\d{2}`: eight digits
grouped 3–3–2, each of the two dots independently optional. -/
def specShape (l : List Char) : Prop :=
  ∃ a b c : List Char, a.length = 3 ∧ b.length = 3 ∧ c.length = 2 ∧
    (∀ ch ∈ a ++ b ++ c, ch.isDigit) ∧
    (l = a ++ (b ++ c) ∨ l = a ++ '.' :: (b ++ c) ∨
     l = a ++ (b ++ '.' :: c) ∨ l = a ++ '.' :: (b ++ '.' :: c))

/-- A search item whose `product` object has a `name` but is missing at
least one of the four required fields — the kind of item the spec says
`search` drops. -/
def isBadItem (b : Json) : Bool :=
  match jsonGet b "product" with
  | .ok p => jsonHas p "name" && requiredFields.any (fun f => !jsonHas p f)
  | .error _ => false

/-- The cache holds nothing, or a well-formed JSON file, at `path`. -/
def cacheCleanAt (σ : St) (path : String) : Prop :=
  σ.cache.lookup path = none ∨ ∃ j, σ.cache.lookup path = some (.json j)

/-- Every successful 2xx answer of `net` for the given URL is a JSON body
carrying an `exists` field. -/
def goodExistsNet (net : Net) (url : String) : Prop :=
  ∀ req : Request, req.url = url → ∀ s d, net req = .ok s d →
    ¬(s < 200 ∨ 300 ≤ s) → ∃ j v, d = .json j ∧ jsonGet j "exists" = .ok v

/-- The cache holds nothing, or a well-formed JSON file with an `exists`
field, at `path`. -/
def cacheExistsCleanAt (σ : St) (path : String) : Prop :=
  σ.cache.lookup path = none ∨
    ∃ j v, σ.cache.lookup path = some (.json j) ∧ jsonGet j "exists" = .ok v


/-- Fixture: a network that always answers 200 with `{"exists": true}`. -/
def netTrue : Net := fun _ => .ok 200 (.json (.obj [("exists", .bool true)]))

/-- Fixture: a network that always answers 200 with `{"exists": false}`. -/
def netFalse : Net := fun _ => .ok 200 (.json (.obj [("exists", .bool false)]))

/-- Fixture: a network where every connection fails. -/
def netDead : Net := fun _ => .transportErr

/-- Fixture: a fresh client for country `ie`, language `en`. -/
def st0 : St := initSt "ie" "en"

/-- Fixture: the state after `get_exists` for item `12345678` on `netTrue` —
`_get`'s shared default-headers dict now holds the two web-api headers. -/
def stAfterExists : St := (get_exists netTrue st0 "12345678").2

/-- Fixture: a thumbnail URL on the ordinary www host. -/
def thumbUrlFix : String :=
  "https://www.ikea.com/ie/en/images/products/12345678.jpg"
/-- Fixture: a client whose cached `pip.json` for item `123` holds bytes
that are not valid JSON. -/
def stRawPip : St :=
  { st0 with cache := [(cachePath st0 "123" "pip.json", .raw "oops")] }

/-- Fixture: a client whose cached `exists.json` for item `123` holds valid
JSON without an `exists` field. -/
def stNoExistsField : St :=
  { st0 with cache := [(cachePath st0 "123" "exists.json", .json (.obj []))] }

/-- Fixture: a network answering every request with 200 and a body that
serves both as exists data and as model metadata. -/
def netModel : Net :=
  fun _ => .ok 200 (.json (.obj [("exists", .bool true),
    ("modelUrl", .str "https://m.example/x.glb")]))

/-- Fixture: the state after a full successful `get_model` for item `7` on
`netModel` — both shared default dicts now hold the web-api headers:
`_get`'s was mutated by the `get_exists` sub-call and `_get_json`'s by the
model-metadata fetch. -/
def stAfterModel : St := (get_model netModel st0 "7").2

/-- Fixture: a search response body carrying the given items under
`searchResultPage.products.main.items`. -/
def searchBody (items : List Json) : Json :=
  .obj [("searchResultPage", .obj [("products", .obj [("main",
    .obj [("items", .arr items)])])])]

/-- Fixture: a network answering every request with 200 and the given
search body. -/
def netSearch (items : List Json) : Net :=
  fun _ => .ok 200 (.json (searchBody items))

/-- Fixture: a search item whose product has a `name` but no
`mainImageAlt` (nor the other required fields' companion `mainImageAlt`). -/
def badItemFix : Json :=
  .obj [("product", .obj [("name", .str "STOLVIK"), ("itemNo", .str "123"),
    ("mainImageUrl", .str "u"), ("pipUrl", .str "p")])]

/-- Fixture: a search item whose product object is empty — every required
field and `name` are missing. -/
def namelessItem : Json := .obj [("product", .obj [])]

/-- Fixture: the state right after `search`'s fetch of the one-bad-item
response. -/
def stAfterBadFetch : St :=
  (_get_json (netSearch [badItemFix]) (searchUrl st0)
    (searchParams "chair") none st0).2

/-! ## Association-list and `_get` lemmas -/

theorem lookup_alistSet_self {β : Type} (l : List (String × β)) (k : String)
    (v : β) : (alistSet l k v).lookup k = some v := by
  induction l with
  | nil => simp [alistSet, List.lookup]
  | cons kv rest ih =>
    obtain ⟨k', v'⟩ := kv
    by_cases h : k' = k
    · simp [alistSet, h, List.lookup]
    · simp only [alistSet, if_neg h, List.lookup]
      rw [show (k == k') = false from beq_eq_false_iff_ne.mpr (Ne.symm h)]
      exact ih

theorem lookup_alistSet_ne {β : Type} (l : List (String × β)) (k : String)
    (v : β) (k' : String) (h : k' ≠ k) :
    (alistSet l k v).lookup k' = l.lookup k' := by
  induction l with
  | nil =>
    simp only [alistSet, List.lookup]
    rw [show (k' == k) = false from beq_eq_false_iff_ne.mpr h]
  | cons kv rest ih =>
    obtain ⟨k₀, v₀⟩ := kv
    by_cases h0 : k₀ = k
    · subst h0
      simp only [alistSet, if_pos rfl, List.lookup]
      rw [show (k' == k₀) = false from beq_eq_false_iff_ne.mpr h]
    · simp only [alistSet, if_neg h0, List.lookup]
      by_cases h1 : k' = k₀
      · rw [show (k' == k₀) = true from beq_iff_eq.mpr h1]
      · rw [show (k' == k₀) = false from beq_eq_false_iff_ne.mpr h1]
        exact ih

theorem _get_cache (net : Net) (url : String) (params : List (String × String))
    (src : HeadersSrc) (σ : St) :
    (_get net url params src σ).2.cache = σ.cache := by
  unfold _get
  cases src <;> dsimp only <;> split <;> first | (split <;> simp) | simp

theorem _get_region (net : Net) (url : String) (params : List (String × String))
    (src : HeadersSrc) (σ : St) :
    regionEq σ (_get net url params src σ).2 := by
  unfold _get
  cases src <;> dsimp only <;> split <;>
    first | (split <;> simp [regionEq]) | simp [regionEq]

theorem _get_requests (net : Net) (url : String)
    (params : List (String × String)) (src : HeadersSrc)
    (σ : St) : ∃ hdr, (_get net url params src σ).2.requests
      = σ.requests ++ [⟨url, params, hdr⟩] := by
  unfold _get
  cases src <;> dsimp only <;> split <;>
    first | (split <;> exact ⟨_, rfl⟩) | exact ⟨_, rfl⟩

theorem _get_ok (net : Net) (url : String) (params : List (String × String))
    (src : HeadersSrc) (σ : St) (d : Data) (σ' : St)
    (h : _get net url params src σ = (.ok d, σ')) :
    ∃ req s, Request.url req = url ∧ net req = .ok s d ∧
      ¬(s < 200 ∨ 300 ≤ s) := by
  unfold _get at h
  cases src <;> dsimp only at h <;> split at h <;>
    first
    | exact absurd h (by simp)
    | · rename_i status body hnet
        split at h
        · exact absurd h (by simp)
        · rename_i hs
          have hbd : body = d := by
            have := congrArg Prod.fst h
            simpa using this
          subst hbd
          exact ⟨_, status, rfl, hnet, hs⟩

theorem _get_json_region (net : Net) (url : String)
    (params : List (String × String)) (ha : Option (List (String × String)))
    (σ : St) : regionEq σ (_get_json net url params ha σ).2 := by
  unfold _get_json
  split <;> rename_i heq
  · have := _get_region net url params (jsonHeadersSrc ha) σ
    rwa [heq] at this
  · split
    · have := _get_region net url params (jsonHeadersSrc ha) σ
      rwa [heq] at this
    · have := _get_region net url params (jsonHeadersSrc ha) σ
      rwa [heq] at this

theorem _get_json_cache (net : Net) (url : String)
    (params : List (String × String)) (ha : Option (List (String × String)))
    (σ : St) : (_get_json net url params ha σ).2.cache = σ.cache := by
  unfold _get_json
  split <;> rename_i heq
  · have := _get_cache net url params (jsonHeadersSrc ha) σ
    rwa [heq] at this
  · split <;>
    · have := _get_cache net url params (jsonHeadersSrc ha) σ
      rwa [heq] at this

/-! ## Region preservation -/

theorem regionEq_refl (σ : St) : regionEq σ σ := ⟨rfl, rfl, rfl⟩

theorem regionEq_trans {σ₁ σ₂ σ₃ : St} (h₁ : regionEq σ₁ σ₂)
    (h₂ : regionEq σ₂ σ₃) : regionEq σ₁ σ₃ :=
  ⟨h₂.1.trans h₁.1, h₂.2.1.trans h₁.2.1, h₂.2.2.trans h₁.2.2⟩

theorem regionEq_setCache {σ σ' : St} (c : List (String × Data))
    (h : regionEq σ σ') : regionEq σ { σ' with cache := c } := h

theorem get_exists_fetch_region (net : Net) (σ : St) (i p : String) :
    regionEq σ (get_exists_fetch net σ i p).2 := by
  simp only [get_exists_fetch]
  cases hl : σ.cache.lookup p with
  | some d => exact regionEq_refl σ
  | none =>
    have hg := _get_region net (existsUrl σ i) [] .getDefault σ
    cases hG : _get net (existsUrl σ i) [] .getDefault σ with
    | mk r σ' =>
    rw [hG] at hg
    cases r with
    | error e => exact hg
    | ok d => exact hg

theorem get_exists_region (net : Net) (σ : St) (i : String) :
    regionEq σ (get_exists net σ i).2 := by
  simp only [get_exists]
  have hg := get_exists_fetch_region net σ i (cachePath σ i "exists.json")
  cases hF : get_exists_fetch net σ i (cachePath σ i "exists.json") with
  | mk r σ' =>
  rw [hF] at hg
  cases r with
  | error e => exact hg
  | ok u => exact hg

theorem get_pip_fetch_region (net : Net) (σ : St) (i p : String) :
    regionEq σ (get_pip_fetch net σ i p).2 := by
  simp only [get_pip_fetch]
  cases hl : σ.cache.lookup p with
  | some d => exact regionEq_refl σ
  | none =>
    have hg := _get_json_region net (pipUrl σ i) [] none σ
    cases hG : _get_json net (pipUrl σ i) [] none σ with
    | mk r σ' =>
    rw [hG] at hg
    cases r with
    | error e => exact hg
    | ok j => exact hg

theorem get_pip_region (net : Net) (σ : St) (i : String) :
    regionEq σ (get_pip net σ i).2 := by
  simp only [get_pip]
  have hg := get_pip_fetch_region net σ i (cachePath σ i "pip.json")
  cases hF : get_pip_fetch net σ i (cachePath σ i "pip.json") with
  | mk r σ' =>
  rw [hF] at hg
  cases r with
  | error e => exact hg
  | ok u => exact hg

theorem get_thumbnail_region (net : Net) (σ : St) (i u : String) :
    regionEq σ (get_thumbnail net σ i u).2 := by
  simp only [get_thumbnail]
  cases hl : σ.cache.lookup (cachePath σ i "thumbnail.jpg") with
  | some d => exact regionEq_refl σ
  | none =>
    have hg := _get_region net u [] .getDefault σ
    cases hG : _get net u [] .getDefault σ with
    | mk r σ' =>
    rw [hG] at hg
    cases r with
    | error e => exact hg
    | ok d => exact hg

theorem get_model_fetch_region (net : Net) (σ : St) (i p : String) :
    regionEq σ (get_model_fetch net σ i p).2 := by
  simp only [get_model_fetch]
  have hg := get_exists_region net σ i
  cases hE : get_exists net σ i with
  | mk r σ' =>
  rw [hE] at hg
  cases r with
  | error e => exact hg
  | ok v =>
    dsimp only
    by_cases hv : pyTruthy v
    · rw [if_pos hv]
      have hg2 := _get_json_region net (modelMetaUrl σ i) [] none σ'
      cases hJ : _get_json net (modelMetaUrl σ i) [] none σ' with
      | mk rj σ2 =>
      rw [hJ] at hg2
      have hσ2 : regionEq σ σ2 := regionEq_trans hg hg2
      cases rj with
      | error e => exact hσ2
      | ok j =>
        dsimp only
        cases hU : jsonGet j "modelUrl" with
        | error e => exact hσ2
        | ok uv =>
          cases uv with
          | str us =>
            dsimp only
            have hg3 := _get_region net us [] .getDefault σ2
            cases hB : _get net us [] .getDefault σ2 with
            | mk rb σ3 =>
            rw [hB] at hg3
            have hσ3 : regionEq σ σ3 := regionEq_trans hσ2 hg3
            cases rb with
            | error e => exact hσ3
            | ok d => exact hσ3
          | null => exact hσ2
          | bool b => exact hσ2
          | num n => exact hσ2
          | arr xs => exact hσ2
          | obj o => exact hσ2
    · rw [if_neg hv]
      exact hg

theorem get_model_region (net : Net) (σ : St) (i : String) :
    regionEq σ (get_model net σ i).2 := by
  simp only [get_model]
  cases hl : σ.cache.lookup (cachePath σ i "model.glb") with
  | some d => exact regionEq_refl σ
  | none =>
    have hg := get_model_fetch_region net σ i (cachePath σ i "model.glb")
    cases hF : get_model_fetch net σ i (cachePath σ i "model.glb") with
    | mk r σ' =>
    rw [hF] at hg
    cases r with
    | error e => exact hg
    | ok u => exact hg

theorem processItems_region (net : Net) (items : List Json) :
    ∀ (σ : St) (acc : List Json),
      regionEq σ (processItems net σ items acc).2 := by
  induction items with
  | nil => intro σ acc; exact regionEq_refl σ
  | cons i rest ih =>
    intro σ acc
    simp only [processItems]
    cases jsonGet i "product" with
    | error e => exact regionEq_refl σ
    | ok p =>
      dsimp only
      cases checkFields p with
      | error e => exact regionEq_refl σ
      | ok valid =>
        dsimp only
        cases valid with
        | false => exact ih σ acc
        | true =>
          rw [if_pos rfl]
          cases hItem : jsonGet p "itemNo" with
          | error e => exact regionEq_refl σ
          | ok iv =>
            cases iv with
            | str itemNo =>
              dsimp only
              have hg := get_exists_region net σ itemNo
              cases hE : get_exists net σ itemNo with
              | mk r σ2 =>
              rw [hE] at hg
              cases r with
              | error e => exact hg
              | ok v =>
                dsimp only
                cases hT : pyTruthy v with
                | true =>
                  rw [if_pos rfl]
                  cases mkEntry p with
                  | error e => exact hg
                  | ok entry =>
                    exact regionEq_trans hg (ih σ2 (acc ++ [entry]))
                | false =>
                  rw [if_neg (by simp)]
                  cases jsonGet p "name" with
                  | error e => exact hg
                  | ok _ => exact regionEq_trans hg (ih σ2 acc)
            | null => exact regionEq_refl σ
            | bool b => exact regionEq_refl σ
            | num n => exact regionEq_refl σ
            | arr xs => exact regionEq_refl σ
            | obj o => exact regionEq_refl σ

theorem search_region (net : Net) (σ : St) (q : String) :
    regionEq σ (search net σ q).2 := by
  simp only [search]
  rcases hG : _get_json net (searchUrl σ) (searchParams q) none σ with ⟨r, σ'⟩
  have hg := _get_json_region net (searchUrl σ) (searchParams q) none σ
  rw [hG] at hg
  cases r with
  | error e => exact hg
  | ok j =>
    dsimp only
    cases searchItems j with
    | error e => exact hg
    | ok items =>
      cases items <;> try exact hg
      rename_i xs
      exact regionEq_trans hg (processItems_region net xs σ' [])

/-- C9: the region context is fixed at construction — no client operation
(`search`, `get_pip`, `get_thumbnail`, `get_exists`, `get_model`) modifies
the client's country, language, or cache-root field. -/
theorem region_context_immutable :
    (∀ (net : Net) (σ : St) (q : String), regionEq σ (search net σ q).2) ∧
    (∀ (net : Net) (σ : St) (i : String), regionEq σ (get_pip net σ i).2) ∧
    (∀ (net : Net) (σ : St) (i u : String),
      regionEq σ (get_thumbnail net σ i u).2) ∧
    (∀ (net : Net) (σ : St) (i : String), regionEq σ (get_exists net σ i).2) ∧
    (∀ (net : Net) (σ : St) (i : String), regionEq σ (get_model net σ i).2) :=
  ⟨search_region, get_pip_region, get_thumbnail_region,
   get_exists_region, get_model_region⟩

/-! ## The item-number matcher -/

theorem consumeDigits_eq_some (n : Nat) : ∀ (l r : List Char),
    consumeDigits n l = some r ↔
    ∃ a : List Char, a.length = n ∧ (∀ c ∈ a, c.isDigit) ∧ l = a ++ r := by
  induction n with
  | zero =>
    intro l r
    simp only [consumeDigits, Option.some.injEq]
    constructor
    · rintro rfl
      exact ⟨[], rfl, by simp, rfl⟩
    · rintro ⟨a, ha, _, rfl⟩
      rw [List.length_eq_zero] at ha
      simp [ha]
  | succ m ih =>
    intro l r
    cases l with
    | nil =>
      simp only [consumeDigits]
      constructor
      · intro h; exact absurd h (by simp)
      · rintro ⟨a, ha, _, h⟩
        cases a with
        | nil => simp at ha
        | cons x xs => simp at h
    | cons c cs =>
      simp only [consumeDigits]
      by_cases hc : c.isDigit
      · rw [if_pos hc, ih]
        constructor
        · rintro ⟨a, ha, hd, rfl⟩
          exact ⟨c :: a, by simp [ha], by
            intro x hx
            rcases List.mem_cons.mp hx with rfl | hx
            · exact hc
            · exact hd x hx, rfl⟩
        · rintro ⟨a, ha, hd, h⟩
          cases a with
          | nil => simp at ha
          | cons x xs =>
            obtain ⟨rfl, h2⟩ := List.cons.injEq .. ▸ h
            exact ⟨xs, by simpa using ha, fun y hy => hd y (List.mem_cons_of_mem _ hy), h2⟩
      · rw [if_neg hc]
        constructor
        · intro h; exact absurd h (by simp)
        · rintro ⟨a, ha, hd, h⟩
          cases a with
          | nil => simp at ha
          | cons x xs =>
            obtain ⟨rfl, -⟩ := List.cons.injEq .. ▸ h
            exact absurd (hd c (by simp)) hc

theorem consumeDigits_append (n : Nat) (a r : List Char) (ha : a.length = n)
    (hd : ∀ c ∈ a, c.isDigit) : consumeDigits n (a ++ r) = some r :=
  (consumeDigits_eq_some n (a ++ r) r).mpr ⟨a, ha, hd, rfl⟩

theorem isDigit_ne_dot (c : Char) (h : c.isDigit = true) : c ≠ '.' := by
  rintro rfl
  exact absurd h (by decide)

theorem consumeOptDot_dot (l : List Char) : consumeOptDot ('.' :: l) = l := by
  simp [consumeOptDot]

theorem consumeOptDot_digits (b r : List Char) (hb : b ≠ [])
    (hd : ∀ c ∈ b, c.isDigit) : consumeOptDot (b ++ r) = b ++ r := by
  cases b with
  | nil => exact absurd rfl hb
  | cons x xs =>
    simp only [List.cons_append, consumeOptDot]
    rw [if_neg (isDigit_ne_dot x (hd x (by simp)))]

theorem consumeOptDot_dichotomy (l : List Char) :
    (∃ t, l = '.' :: t ∧ consumeOptDot l = t) ∨ consumeOptDot l = l := by
  cases l with
  | nil => exact Or.inr rfl
  | cons x xs =>
    by_cases hx : x = '.'
    · subst hx
      exact Or.inl ⟨xs, rfl, consumeOptDot_dot xs⟩
    · exact Or.inr (by simp [consumeOptDot, hx])

theorem itemNoCore_iff (l : List Char) : itemNoCore l = true ↔ specShape l := by
  constructor
  · intro h
    simp only [itemNoCore] at h
    cases h1 : consumeDigits 3 l with
    | none => rw [h1] at h; exact absurd h (by simp)
    | some l1 =>
      rw [h1] at h
      dsimp only at h
      obtain ⟨a, haLen, haDig, rfl⟩ := (consumeDigits_eq_some 3 l l1).mp h1
      cases h2 : consumeDigits 3 (consumeOptDot l1) with
      | none => rw [h2] at h; exact absurd h (by simp)
      | some l3 =>
        rw [h2] at h
        dsimp only at h
        obtain ⟨b, hbLen, hbDig, hb⟩ :=
          (consumeDigits_eq_some 3 (consumeOptDot l1) l3).mp h2
        cases h3 : consumeDigits 2 (consumeOptDot l3) with
        | none => rw [h3] at h; exact absurd h (by simp)
        | some l5 =>
          rw [h3] at h
          dsimp only at h
          obtain ⟨c, hcLen, hcDig, hc⟩ :=
            (consumeDigits_eq_some 2 (consumeOptDot l3) l5).mp h3
          have hl5 : l5 = [] := by simpa using h
          subst hl5
          have hdig : ∀ ch ∈ a ++ b ++ c, ch.isDigit := by
            intro ch hch
            rcases List.mem_append.mp hch with hch | hch
            · rcases List.mem_append.mp hch with hch | hch
              · exact haDig ch hch
              · exact hbDig ch hch
            · exact hcDig ch hch
          rw [List.append_nil] at hc
          refine ⟨a, b, c, haLen, hbLen, hcLen, hdig, ?_⟩
          -- analyse whether each optional dot was consumed
          rcases consumeOptDot_dichotomy l1 with ⟨t, rfl, hcd⟩ | hcd <;>
            rw [hcd] at hb <;> subst hb <;>
            rcases consumeOptDot_dichotomy l3 with ⟨t', rfl, hcd'⟩ | hcd' <;>
            rw [hcd'] at hc <;> subst hc
          · exact Or.inr (Or.inr (Or.inr (by simp)))
          · exact Or.inr (Or.inl (by simp))
          · exact Or.inr (Or.inr (Or.inl (by simp)))
          · exact Or.inl (by simp)
  · rintro ⟨a, b, c, haLen, hbLen, hcLen, hdig, hshape⟩
    have haDig : ∀ ch ∈ a, ch.isDigit := fun ch h => hdig ch (by simp [h])
    have hbDig : ∀ ch ∈ b, ch.isDigit := fun ch h => hdig ch (by simp [h])
    have hcDig : ∀ ch ∈ c, ch.isDigit := fun ch h => hdig ch (by simp [h])
    have hbne : b ≠ [] := by intro h; rw [h] at hbLen; simp at hbLen
    have hcne : c ≠ [] := by intro h; rw [h] at hcLen; simp at hcLen
    have hc0 : consumeDigits 2 (c ++ []) = some [] :=
      consumeDigits_append 2 c [] hcLen hcDig
    rw [List.append_nil] at hc0
    rcases hshape with rfl | rfl | rfl | rfl
    · simp only [itemNoCore]
      rw [consumeDigits_append 3 a (b ++ c) haLen haDig]
      dsimp only
      rw [consumeOptDot_digits b c hbne hbDig,
        consumeDigits_append 3 b c hbLen hbDig]
      dsimp only
      cases c with
      | nil => exact absurd rfl hcne
      | cons y ys =>
        rw [show consumeOptDot (y :: ys) = y :: ys by
            simp [consumeOptDot, isDigit_ne_dot y (hcDig y (by simp))]]
        rw [hc0]
        rfl
    · simp only [itemNoCore]
      rw [consumeDigits_append 3 a ('.' :: (b ++ c)) haLen haDig]
      dsimp only
      rw [consumeOptDot_dot, consumeDigits_append 3 b c hbLen hbDig]
      dsimp only
      cases c with
      | nil => exact absurd rfl hcne
      | cons y ys =>
        rw [show consumeOptDot (y :: ys) = y :: ys by
            simp [consumeOptDot, isDigit_ne_dot y (hcDig y (by simp))]]
        rw [hc0]
        rfl
    · simp only [itemNoCore]
      rw [consumeDigits_append 3 a (b ++ '.' :: c) haLen haDig]
      dsimp only
      rw [consumeOptDot_digits b ('.' :: c) hbne hbDig,
        consumeDigits_append 3 b ('.' :: c) hbLen hbDig]
      dsimp only
      rw [consumeOptDot_dot, hc0]
      rfl
    · simp only [itemNoCore]
      rw [consumeDigits_append 3 a ('.' :: (b ++ '.' :: c)) haLen haDig]
      dsimp only
      rw [consumeOptDot_dot, consumeDigits_append 3 b ('.' :: c) hbLen hbDig]
      dsimp only
      rw [consumeOptDot_dot, hc0]
      rfl

/-- C7 (counterexample): `"12345678\n"` is not a full match of
`\d{3}\.?\d{3}\.?\d{2}`, yet `is_item_no` returns true on it, because
Python's `$` also matches just before a trailing newline.  So `is_item_no`
does not return true exactly on the full matches. -/
theorem is_item_no_trailing_newline :
    is_item_no "12345678\n" = true ∧ fullMatchItemNo "12345678\n" = false :=
  ⟨rfl, rfl⟩

/-- C7 (amended): `is_item_no s` is true exactly when `s`, or `s` with a
single trailing newline removed, consists of 8 digits grouped 3-3-2 with
each of the two dots independently optional; in particular
`"123.456.78"` and `"12345678"` give true and `"1234567"` gives false. -/
theorem is_item_no_spec :
    (∀ s : String, is_item_no s = true ↔
      (specShape s.data ∨ ∃ l, s.data = l ++ ['\n'] ∧ specShape l)) ∧
    is_item_no "123.456.78" = true ∧ is_item_no "12345678" = true ∧
    is_item_no "1234567" = false := by
  refine ⟨?_, rfl, rfl, rfl⟩
  intro s
  simp only [is_item_no, Bool.or_eq_true]
  constructor
  · rintro (h | h)
    · exact Or.inl ((itemNoCore_iff _).mp h)
    · cases hg : s.data.getLast? with
      | none => rw [hg] at h; exact absurd h (by simp)
      | some c =>
        rw [hg] at h
        dsimp only at h
        rw [Bool.and_eq_true] at h
        obtain ⟨hc, hcore⟩ := h
        have hc' : c = '\n' := by simpa using hc
        subst hc'
        have hsplit := List.dropLast_append_getLast? '\n' (by rw [hg]; rfl)
        exact Or.inr ⟨s.data.dropLast, hsplit.symm, (itemNoCore_iff _).mp hcore⟩
  · rintro (h | ⟨l, hl, h⟩)
    · exact Or.inl ((itemNoCore_iff _).mpr h)
    · refine Or.inr ?_
      rw [hl, List.getLast?_concat]
      dsimp only
      rw [Bool.and_eq_true]
      exact ⟨by simp, by rw [List.dropLast_concat]; exact (itemNoCore_iff _).mpr h⟩

/-! ## Compaction and formatting -/

theorem subNonDigit_idem (l : List Char) :
    subNonDigit (subNonDigit l) = subNonDigit l := by
  induction l with
  | nil => rfl
  | cons c cs ih =>
    by_cases h : c.isDigit
    · simp [subNonDigit, h, ih]
    · simp [subNonDigit, h, ih]

theorem subNonDigit_eq_filter (l : List Char) :
    subNonDigit l = l.filter (fun c => c.isDigit) := by
  induction l with
  | nil => rfl
  | cons c cs ih =>
    by_cases h : c.isDigit
    · simp [subNonDigit, h, ih, List.filter_cons]
    · simp [subNonDigit, h, ih, List.filter_cons]

/-- C8: formatting is invariant under prior compaction — for every valid
item identifier `x`, `format_item_no (compact_item_no x) = format_item_no x`
— and `format_item_no "12345678" = "123.456.78"`. -/
theorem format_item_no_compact_invariant :
    (∀ x : String, is_item_no x = true →
      format_item_no (compact_item_no x) = format_item_no x) ∧
    format_item_no "12345678" = "123.456.78" := by
  refine ⟨?_, rfl⟩
  intro x _
  simp only [format_item_no, compact_item_no, subNonDigit_idem]

/-- C8 witness at `"123.456.78"`. -/
theorem format_item_no_compact_invariant_witness :
    format_item_no (compact_item_no "123.456.78") = format_item_no "123.456.78" :=
  format_item_no_compact_invariant.1 "123.456.78" rfl

/-- C10: `compact_item_no` and `format_item_no` are total on arbitrary
strings: compaction returns exactly the digits in order, formatting slices
the digits into positions 0–3, 3–6, 6–8 joined by dots, and
`format_item_no "" = ".."`. -/
theorem compact_format_total :
    (∀ s : String,
      (compact_item_no s).data = s.data.filter (fun c => c.isDigit) ∧
      format_item_no s =
        String.mk ((s.data.filter (fun c => c.isDigit)).take 3) ++ "." ++
        String.mk (((s.data.filter (fun c => c.isDigit)).drop 3).take 3) ++ "." ++
        String.mk (((s.data.filter (fun c => c.isDigit)).drop 6).take 2)) ∧
    format_item_no "" = ".." := by
  refine ⟨?_, rfl⟩
  intro s
  refine ⟨by simp [compact_item_no, subNonDigit_eq_filter], ?_⟩
  simp [format_item_no, compact_item_no, subNonDigit_eq_filter, sliceList]

/-! ## The default-headers leak -/

/-- C1: both `_get`'s and `_get_json`'s `headers` parameters have mutable
default dicts shared across calls, and a web-api request through either
path mutates that path's dict in place.  Two traces on a fresh client:

(1) after `get_exists` (web-api, direct `_get`), a `get_thumbnail` fetch of
a `www.ikea.com` image — another direct `_get` call — sends `X-Client-Id`
and `User-Agent`;

(2) a single successful `get_model` pollutes both dicts (the `get_exists`
sub-call pollutes `_get`'s, the metadata fetch pollutes `_get_json`'s —
`_get` mutates the dict `_get_json` passed in), so its own binary download
from `m.example` already carries the headers, and a later `get_pip` to
`www.ikea.com` — which goes through `_get_json`'s dict — carries them too.

So the two extra headers are not confined to web-api requests. -/
theorem headers_leak_to_non_webapi_host :
    ((get_thumbnail netTrue stAfterExists "12345678" thumbUrlFix).2.requests.map
      (fun r => (r.url, r.headers.lookup "X-Client-Id",
                 r.headers.lookup "User-Agent"))) =
      [(existsUrl st0 "12345678", some CLIENT_ID, some USER_AGENT),
       (thumbUrlFix, some CLIENT_ID, some USER_AGENT)] ∧
    strContains thumbUrlFix "web-api.ikea.com" = false ∧
    ((get_pip netModel stAfterModel "12345678").2.requests.map
      (fun r => (r.url, r.headers.lookup "X-Client-Id",
                 r.headers.lookup "User-Agent"))) =
      [(existsUrl st0 "7", some CLIENT_ID, some USER_AGENT),
       (modelMetaUrl st0 "7", some CLIENT_ID, some USER_AGENT),
       ("https://m.example/x.glb", some CLIENT_ID, some USER_AGENT),
       (pipUrl st0 "12345678", some CLIENT_ID, some USER_AGENT)] ∧
    strContains "https://m.example/x.glb" "web-api.ikea.com" = false ∧
    strContains (pipUrl st0 "12345678") "web-api.ikea.com" = false :=
  ⟨rfl, rfl, rfl, rfl, rfl⟩

/-- Conversely, `get_exists` followed by `get_pip` does NOT leak: `get_pip`
goes through `_get_json`, whose own default dict is separate from `_get`'s
and still unpolluted, so the `www.ikea.com` request carries no extra
headers. -/
theorem no_leak_on_exists_then_pip :
    ((get_pip netTrue stAfterExists "12345678").2.requests.map
      (fun r => (r.url, r.headers.lookup "X-Client-Id",
                 r.headers.lookup "User-Agent"))) =
      [(existsUrl st0 "12345678", some CLIENT_ID, some USER_AGENT),
       (pipUrl st0 "12345678", none, none)] :=
  rfl

/-! ## `search` drops invalid items that still carry a name -/

theorem jsonHas_get (p : Json) (k : String) (h : jsonHas p k = true) :
    ∃ x, jsonGet p k = .ok x := by
  cases p with
  | obj fields =>
    simp only [jsonHas] at h
    rw [Option.isSome_iff_exists] at h
    obtain ⟨x, hx⟩ := h
    exact ⟨x, by simp [jsonGet, hx]⟩
  | null => simp [jsonHas] at h
  | bool b => simp [jsonHas] at h
  | num n => simp [jsonHas] at h
  | str s => simp [jsonHas] at h
  | arr xs => simp [jsonHas] at h

theorem checkFieldsAux_name (p : Json) (hname : jsonHas p "name" = true) :
    ∀ (fs : List String) (v : Bool),
      checkFieldsAux p fs v = .ok (v && fs.all (fun f => jsonHas p f)) := by
  intro fs
  induction fs with
  | nil => intro v; simp [checkFieldsAux]
  | cons f fs ih =>
    intro v
    by_cases hf : jsonHas p f
    · simp [checkFieldsAux, hf, ih, List.all_cons]
    · obtain ⟨x, hx⟩ := jsonHas_get p "name" hname
      have hf' : jsonHas p f = false := by simpa using hf
      simp [checkFieldsAux, hf', hx, ih, List.all_cons]

theorem checkFields_of_bad (p : Json) (hname : jsonHas p "name" = true)
    (hmiss : requiredFields.any (fun f => !jsonHas p f) = true) :
    checkFields p = .ok false := by
  rw [checkFields, checkFieldsAux_name p hname]
  obtain ⟨f, hf, hnot⟩ := List.any_eq_true.mp hmiss
  cases hAll : requiredFields.all (fun f => jsonHas p f) with
  | false => rfl
  | true =>
    have := List.all_eq_true.mp hAll f hf
    simp [this] at hnot

theorem processItems_drop_head (net : Net) (b : Json)
    (hbad : isBadItem b = true) (σ : St) (S : List Json) (acc : List Json) :
    processItems net σ (b :: S) acc = processItems net σ S acc := by
  simp only [processItems]
  cases hP : jsonGet b "product" with
  | error e => rw [isBadItem, hP] at hbad; exact absurd hbad (by simp)
  | ok p =>
    rw [isBadItem, hP] at hbad
    dsimp only at hbad
    rw [Bool.and_eq_true] at hbad
    obtain ⟨hname, hmiss⟩ := hbad
    dsimp only
    rw [checkFields_of_bad p hname hmiss]
    rfl

theorem processItems_drop (net : Net) (b : Json) (hbad : isBadItem b = true) :
    ∀ (P : List Json) (S : List Json) (σ : St) (acc : List Json),
      processItems net σ (P ++ b :: S) acc = processItems net σ (P ++ S) acc := by
  intro P
  induction P with
  | nil => intro S σ acc; exact processItems_drop_head net b hbad σ S acc
  | cons i P ih =>
    intro S σ acc
    simp only [List.cons_append, processItems]
    cases jsonGet i "product" with
    | error e => rfl
    | ok p =>
      dsimp only
      cases checkFields p with
      | error e => rfl
      | ok valid =>
        dsimp only
        cases valid with
        | false => exact ih S σ acc
        | true =>
          rw [if_pos rfl, if_pos rfl]
          cases hItem : jsonGet p "itemNo" with
          | error e => rfl
          | ok iv =>
            cases iv with
            | str itemNo =>
              dsimp only
              cases hE : get_exists net σ itemNo with
              | mk r σ2 =>
              cases r with
              | error e => rfl
              | ok v =>
                dsimp only
                cases hT : pyTruthy v with
                | true =>
                  rw [if_pos rfl, if_pos rfl]
                  cases mkEntry p with
                  | error e => rfl
                  | ok entry => exact ih S σ2 (acc ++ [entry])
                | false =>
                  rw [if_neg (by simp), if_neg (by simp)]
                  cases jsonGet p "name" with
                  | error e => rfl
                  | ok _ => exact ih S σ2 acc
            | null => rfl
            | bool b' => rfl
            | num n => rfl
            | arr xs => rfl
            | obj o => rfl

/-- C2 (amended): an item whose `product` carries a `name` but is missing
at least one of the four required fields is dropped from `search`'s results
without an error: the item-processing loop behaves as if the item were
absent, and a `search` whose fetched response contains such an item returns
exactly what it would return on the remaining items.  (When `name` is also
missing, the drop path itself raises a raw `KeyError` — see the
counterexample.) -/
theorem search_drops_invalid_named_item :
    (∀ (net : Net) (b : Json), isBadItem b = true →
      ∀ (P S : List Json) (σ : St) (acc : List Json),
        processItems net σ (P ++ b :: S) acc =
          processItems net σ (P ++ S) acc) ∧
    (∀ (net : Net) (σ : St) (q : String) (j : Json) (σ' : St)
        (P S : List Json) (b : Json), isBadItem b = true →
      _get_json net (searchUrl σ) (searchParams q) none σ = (.ok j, σ') →
      searchItems j = .ok (.arr (P ++ b :: S)) →
      search net σ q = processItems net σ' (P ++ S) []) := by
  refine ⟨fun net b hbad => processItems_drop net b hbad, ?_⟩
  intro net σ q j σ' P S b hbad hfetch hitems
  simp only [search]
  rw [hfetch]
  dsimp only
  rw [hitems]
  dsimp only
  exact processItems_drop net b hbad P S σ' []

/-- C2 witness: a search whose response holds exactly one item that has a
`name` but no `mainImageAlt` completes and returns the empty result list. -/
theorem search_drops_invalid_named_item_witness :
    search (netSearch [badItemFix]) st0 "chair" =
      processItems (netSearch [badItemFix]) stAfterBadFetch [] [] :=
  search_drops_invalid_named_item.2 (netSearch [badItemFix]) st0 "chair"
    (searchBody [badItemFix]) stAfterBadFetch [] [] badItemFix
    rfl rfl rfl

/-- C2 (counterexample): an item missing a required field AND missing
`name` makes `search` raise a raw `KeyError` (from the `name = p["name"]`
log line inside the drop path) instead of dropping the item: the call does
not complete. -/
theorem search_keyerror_on_nameless_item :
    (search (netSearch [namelessItem]) st0 "chair").1 = .error (.key "name") :=
  rfl

/-! ## Error wrapping and the final cache parse -/

theorem get_pip_fetch_error (net : Net) (σ : St) (i p : String) (e : Err)
    (σ' : St) (h : get_pip_fetch net σ i p = (.error e, σ')) :
    isIkea e = true := by
  simp only [get_pip_fetch] at h
  cases hl : σ.cache.lookup p with
  | some d => rw [hl] at h; exact absurd h (by simp)
  | none =>
    rw [hl] at h
    dsimp only at h
    cases hJ : _get_json net (pipUrl σ i) [] none σ with
    | mk r σ2 =>
    rw [hJ] at h
    cases r with
    | error e2 =>
      dsimp only at h
      rw [Prod.mk.injEq] at h
      obtain ⟨he, -⟩ := h
      injection he with he'
      rw [← he']
      rfl
    | ok j => exact absurd h (by simp)

theorem get_pip_fetch_ok_cache (net : Net) (σ : St) (i p : String) (u : Unit)
    (σ' : St) (h : get_pip_fetch net σ i p = (.ok u, σ'))
    (hclean : cacheCleanAt σ p) :
    ∃ j, σ'.cache.lookup p = some (.json j) := by
  simp only [get_pip_fetch] at h
  cases hl : σ.cache.lookup p with
  | some d =>
    rw [hl] at h
    rw [Prod.mk.injEq] at h
    obtain ⟨-, hσ⟩ := h
    rcases hclean with hnone | ⟨j, hj⟩
    · rw [hl] at hnone; exact absurd hnone (by simp)
    · rw [hl] at hj
      injection hj with hj'
      exact ⟨j, by rw [← hσ, hl, hj']⟩
  | none =>
    rw [hl] at h
    dsimp only at h
    cases hJ : _get_json net (pipUrl σ i) [] none σ with
    | mk r σ2 =>
    rw [hJ] at h
    cases r with
    | error e2 => exact absurd h (by simp)
    | ok j =>
      dsimp only at h
      rw [Prod.mk.injEq] at h
      obtain ⟨-, hσ⟩ := h
      exact ⟨j, by rw [← hσ]; exact lookup_alistSet_self σ2.cache p (.json j)⟩

theorem get_exists_fetch_error (net : Net) (σ : St) (i p : String) (e : Err)
    (σ' : St) (h : get_exists_fetch net σ i p = (.error e, σ')) :
    isIkea e = true := by
  simp only [get_exists_fetch] at h
  cases hl : σ.cache.lookup p with
  | some d => rw [hl] at h; exact absurd h (by simp)
  | none =>
    rw [hl] at h
    dsimp only at h
    cases hG : _get net (existsUrl σ i) [] .getDefault σ with
    | mk r σ2 =>
    rw [hG] at h
    cases r with
    | error e2 =>
      dsimp only at h
      rw [Prod.mk.injEq] at h
      obtain ⟨he, -⟩ := h
      injection he with he'
      rw [← he']
      rfl
    | ok d => exact absurd h (by simp)

theorem get_exists_fetch_ok_cache (net : Net) (σ : St) (i : String)
    (u : Unit) (σ' : St)
    (h : get_exists_fetch net σ i (cachePath σ i "exists.json") = (.ok u, σ'))
    (hgood : goodExistsNet net (existsUrl σ i))
    (hclean : cacheExistsCleanAt σ (cachePath σ i "exists.json")) :
    ∃ j v, σ'.cache.lookup (cachePath σ i "exists.json") = some (.json j) ∧
      jsonGet j "exists" = .ok v := by
  simp only [get_exists_fetch] at h
  cases hl : σ.cache.lookup (cachePath σ i "exists.json") with
  | some d =>
    rw [hl] at h
    rw [Prod.mk.injEq] at h
    obtain ⟨-, hσ⟩ := h
    rcases hclean with hnone | ⟨j, v, hj, hv⟩
    · rw [hl] at hnone; exact absurd hnone (by simp)
    · rw [hl] at hj
      injection hj with hj'
      exact ⟨j, v, by rw [← hσ, hl, hj'], hv⟩
  | none =>
    rw [hl] at h
    dsimp only at h
    cases hG : _get net (existsUrl σ i) [] .getDefault σ with
    | mk r σ2 =>
    rw [hG] at h
    cases r with
    | error e2 => exact absurd h (by simp)
    | ok d =>
      dsimp only at h
      rw [Prod.mk.injEq] at h
      obtain ⟨-, hσ⟩ := h
      obtain ⟨req, st, hurl, hreq, hst⟩ :=
        _get_ok net (existsUrl σ i) [] .getDefault σ d σ2 hG
      obtain ⟨j, v, rfl, hv⟩ := hgood req hurl st d hreq hst
      refine ⟨j, v, ?_, hv⟩
      rw [← hσ]
      exact lookup_alistSet_self σ2.cache (cachePath σ i "exists.json") (.json j)

/-- C3 (amended): every failure raised inside the download/caching phase of
`get_pip` and `get_exists` is wrapped into the single client-error kind
(`IkeaException`).  When the item's cache file pre-exists with well-formed
content (and, for `get_exists`, the network serves well-formed `exists`
bodies), the whole call can only fail with an `IkeaException` — but the
final parse of the cached file sits OUTSIDE the wrapper, so a malformed
pre-existing cache file surfaces as a raw parse/key error (see the
counterexample). -/
theorem download_errors_wrapped :
    (∀ (net : Net) (σ : St) (i : String),
      cacheCleanAt σ (cachePath σ i "pip.json") →
      ∀ (e : Err) (σ' : St), get_pip net σ i = (.error e, σ') →
        isIkea e = true) ∧
    (∀ (net : Net) (σ : St) (i : String),
      goodExistsNet net (existsUrl σ i) →
      cacheExistsCleanAt σ (cachePath σ i "exists.json") →
      ∀ (e : Err) (σ' : St), get_exists net σ i = (.error e, σ') →
        isIkea e = true) := by
  constructor
  · intro net σ i hclean e σ' h
    simp only [get_pip] at h
    cases hF : get_pip_fetch net σ i (cachePath σ i "pip.json") with
    | mk r σ2 =>
    rw [hF] at h
    cases r with
    | error e2 =>
      dsimp only at h
      rw [Prod.mk.injEq] at h
      obtain ⟨he, -⟩ := h
      injection he with he'
      rw [← he']
      exact get_pip_fetch_error net σ i (cachePath σ i "pip.json") e2 σ2 hF
    | ok u =>
      dsimp only at h
      obtain ⟨j, hj⟩ := get_pip_fetch_ok_cache net σ i
        (cachePath σ i "pip.json") u σ2 hF hclean
      rw [Prod.mk.injEq] at h
      obtain ⟨he, -⟩ := h
      rw [readJsonFile, hj] at he
      exact absurd he (by simp [json_loads])
  · intro net σ i hgood hclean e σ' h
    simp only [get_exists] at h
    cases hF : get_exists_fetch net σ i (cachePath σ i "exists.json") with
    | mk r σ2 =>
    rw [hF] at h
    cases r with
    | error e2 =>
      dsimp only at h
      rw [Prod.mk.injEq] at h
      obtain ⟨he, -⟩ := h
      injection he with he'
      rw [← he']
      exact get_exists_fetch_error net σ i (cachePath σ i "exists.json") e2 σ2 hF
    | ok u =>
      dsimp only at h
      obtain ⟨j, v, hj, hv⟩ :=
        get_exists_fetch_ok_cache net σ i u σ2 hF hgood hclean
      rw [Prod.mk.injEq] at h
      obtain ⟨he, -⟩ := h
      rw [readExistsFile, hj] at he
      dsimp only [json_loads] at he
      rw [hv] at he
      exact absurd he (by simp)

/-- C3 witness: with a dead network and an empty cache, `get_pip` fails with
an `IkeaException`, as does `get_exists`. -/
theorem download_errors_wrapped_witness :
    isIkea (Err.ikea "Error downloading PIP for #1") = true ∧
    isIkea (Err.ikea "Error checking model existence for #1") = true :=
  ⟨download_errors_wrapped.1 netDead st0 "1" (Or.inl rfl)
      (Err.ikea "Error downloading PIP for #1") (get_pip netDead st0 "1").2 rfl,
   download_errors_wrapped.2 netDead st0 "1"
      (fun req _ s d hreq => by
        simp only [netDead] at hreq
        exact absurd hreq (by simp))
      (Or.inl rfl)
      (Err.ikea "Error checking model existence for #1")
      (get_exists netDead st0 "1").2 rfl⟩

/-- C3 (counterexample): a pre-existing malformed `pip.json` makes
`get_pip` raise a raw JSON-decode error, and a pre-existing `exists.json`
without an `exists` field makes `get_exists` raise a raw `KeyError` — not
the uniform client error. -/
theorem final_parse_raises_raw_errors :
    (get_pip netDead stRawPip "123").1 = .error .jsonDecode ∧
    (get_exists netDead stNoExistsField "123").1 = .error (.key "exists") :=
  ⟨rfl, rfl⟩

/-! ## `get_model` on an unavailable model -/

theorem append_right_cancel_str (a b c : String) (h : a ++ b = a ++ c) :
    b = c := by
  have h2 := congrArg String.data h
  rw [String.data_append, String.data_append] at h2
  exact String.ext (List.append_cancel_left h2)

theorem modelPath_ne_existsPath (σ : St) (i : String) :
    cachePath σ i "model.glb" ≠ cachePath σ i "exists.json" := by
  intro h
  have := append_right_cancel_str (σ.cacheDir ++ "/" ++ i ++ "/")
    "model.glb" "exists.json" h
  exact absurd (congrArg String.data this) (by decide)

theorem _get_requests_mem (net : Net) (url : String)
    (params : List (String × String)) (src : HeadersSrc)
    (σ : St) : ∀ r ∈ (_get net url params src σ).2.requests,
      r ∈ σ.requests ∨ r.url = url := by
  obtain ⟨hdr, hreq⟩ := _get_requests net url params src σ
  intro r hr
  rw [hreq] at hr
  rcases List.mem_append.mp hr with h | h
  · exact Or.inl h
  · rw [List.mem_singleton] at h
    subst h
    exact Or.inr rfl

theorem get_exists_fetch_requests (net : Net) (σ : St) (i p : String)
    (r : Except Err Unit) (σ' : St)
    (h : get_exists_fetch net σ i p = (r, σ')) :
    ∀ q ∈ σ'.requests, q ∈ σ.requests ∨ q.url = existsUrl σ i := by
  intro q hq
  simp only [get_exists_fetch] at h
  cases hl : σ.cache.lookup p with
  | some d =>
    rw [hl] at h
    rw [Prod.mk.injEq] at h
    obtain ⟨-, hσ⟩ := h
    rw [← hσ] at hq
    exact Or.inl hq
  | none =>
    rw [hl] at h
    dsimp only at h
    have hmem := _get_requests_mem net (existsUrl σ i) [] .getDefault σ
    cases hG : _get net (existsUrl σ i) [] .getDefault σ with
    | mk rg σ2 =>
    rw [hG] at h
    rw [hG] at hmem
    cases rg with
    | error e =>
      rw [Prod.mk.injEq] at h
      obtain ⟨-, hσ⟩ := h
      rw [← hσ] at hq
      exact hmem q hq
    | ok d =>
      dsimp only at h
      rw [Prod.mk.injEq] at h
      obtain ⟨-, hσ⟩ := h
      rw [← hσ] at hq
      exact hmem q hq

theorem get_exists_requests (net : Net) (σ : St) (i : String)
    (v : Except Err Json) (σ' : St) (h : get_exists net σ i = (v, σ')) :
    ∀ q ∈ σ'.requests, q ∈ σ.requests ∨ q.url = existsUrl σ i := by
  simp only [get_exists] at h
  cases hF : get_exists_fetch net σ i (cachePath σ i "exists.json") with
  | mk r σ2 =>
  rw [hF] at h
  have hreq := get_exists_fetch_requests net σ i
    (cachePath σ i "exists.json") r σ2 hF
  cases r with
  | error e =>
    rw [Prod.mk.injEq] at h
    obtain ⟨-, hσ⟩ := h
    rw [← hσ]
    exact hreq
  | ok u =>
    rw [Prod.mk.injEq] at h
    obtain ⟨-, hσ⟩ := h
    rw [← hσ]
    exact hreq

theorem get_exists_fetch_cache_other (net : Net) (σ : St) (i p : String)
    (r : Except Err Unit) (σ' : St)
    (h : get_exists_fetch net σ i p = (r, σ')) (q : String) (hq : q ≠ p) :
    σ'.cache.lookup q = σ.cache.lookup q := by
  simp only [get_exists_fetch] at h
  cases hl : σ.cache.lookup p with
  | some d =>
    rw [hl] at h
    rw [Prod.mk.injEq] at h
    obtain ⟨-, hσ⟩ := h
    rw [← hσ]
  | none =>
    rw [hl] at h
    dsimp only at h
    have hcache := _get_cache net (existsUrl σ i) [] .getDefault σ
    cases hG : _get net (existsUrl σ i) [] .getDefault σ with
    | mk rg σ2 =>
    rw [hG] at h
    rw [hG] at hcache
    cases rg with
    | error e =>
      rw [Prod.mk.injEq] at h
      obtain ⟨-, hσ⟩ := h
      rw [← hσ, hcache]
    | ok d =>
      dsimp only at h
      rw [Prod.mk.injEq] at h
      obtain ⟨-, hσ⟩ := h
      rw [← hσ]
      dsimp only
      rw [lookup_alistSet_ne σ2.cache p d q hq, hcache]

theorem get_exists_cache_other (net : Net) (σ : St) (i : String)
    (v : Except Err Json) (σ' : St) (h : get_exists net σ i = (v, σ'))
    (q : String) (hq : q ≠ cachePath σ i "exists.json") :
    σ'.cache.lookup q = σ.cache.lookup q := by
  simp only [get_exists] at h
  cases hF : get_exists_fetch net σ i (cachePath σ i "exists.json") with
  | mk r σ2 =>
  rw [hF] at h
  have hc := get_exists_fetch_cache_other net σ i
    (cachePath σ i "exists.json") r σ2 hF q hq
  cases r with
  | error e =>
    rw [Prod.mk.injEq] at h
    obtain ⟨-, hσ⟩ := h
    rw [← hσ]
    exact hc
  | ok u =>
    rw [Prod.mk.injEq] at h
    obtain ⟨-, hσ⟩ := h
    rw [← hσ]
    exact hc

/-- C4: when there is no cached model and `get_exists` reports false,
`get_model` raises a client error and stops right there: its final state is
exactly the post-`get_exists` state (so no model-metadata request and no
binary request is issued — every request made targets the `exists`
endpoint), and no model cache file is written. -/
theorem get_model_unavailable :
    ∀ (net : Net) (σ : St) (i : String) (v : Json) (σ' : St),
      σ.cache.lookup (cachePath σ i "model.glb") = none →
      get_exists net σ i = (.ok v, σ') →
      pyTruthy v = false →
      get_model net σ i =
        (.error (.ikea ("Error downloading model for #" ++ i)), σ') ∧
      (∀ r ∈ σ'.requests, r ∈ σ.requests ∨ r.url = existsUrl σ i) ∧
      σ'.cache.lookup (cachePath σ i "model.glb") = none := by
  intro net σ i v σ' hmiss hE hT
  refine ⟨?_, get_exists_requests net σ i (.ok v) σ' hE, ?_⟩
  · simp only [get_model]
    rw [hmiss]
    dsimp only
    simp only [get_model_fetch]
    rw [hE]
    dsimp only
    rw [if_neg (by simp [hT])]
  · rw [get_exists_cache_other net σ i (.ok v) σ' hE
      (cachePath σ i "model.glb") (modelPath_ne_existsPath σ i)]
    exact hmiss

/-- C4 witness: on a network whose `exists` endpoint answers
`{"exists": false}`, `get_model` for a fresh client fails with the wrapped
client error, all requests go to the exists endpoint, and no model file is
cached. -/
theorem get_model_unavailable_witness :
    get_model netFalse st0 "42" =
      (.error (.ikea ("Error downloading model for #42")),
       (get_exists netFalse st0 "42").2) ∧
    (∀ r ∈ (get_exists netFalse st0 "42").2.requests,
      r ∈ st0.requests ∨ r.url = existsUrl st0 "42") ∧
    (get_exists netFalse st0 "42").2.cache.lookup
      (cachePath st0 "42" "model.glb") = none := by
  have h := get_model_unavailable netFalse st0 "42" (.bool false)
    (get_exists netFalse st0 "42").2 rfl rfl rfl
  exact h

/-! ## Cache idempotence -/

theorem readJsonFile_ok (σ2 : St) (path : String) (v : Json)
    (h : readJsonFile σ2 path = .ok v) :
    σ2.cache.lookup path = some (.json v) := by
  simp only [readJsonFile] at h
  cases hl : σ2.cache.lookup path with
  | none => rw [hl] at h; exact absurd h (by simp)
  | some d =>
    rw [hl] at h
    cases d with
    | json j =>
      dsimp only [json_loads] at h
      injection h with h'
      rw [h']
    | raw s =>
      dsimp only [json_loads] at h
      exact absurd h (by simp)

theorem readExistsFile_ok_lookup (σ2 : St) (path : String) (v : Json)
    (h : readExistsFile σ2 path = .ok v) :
    ∃ d, σ2.cache.lookup path = some d := by
  simp only [readExistsFile] at h
  cases hl : σ2.cache.lookup path with
  | none => rw [hl] at h; exact absurd h (by simp)
  | some d => exact ⟨d, rfl⟩

theorem get_pip_ok (net : Net) (σ : St) (i : String) (v : Json) (σ₁ : St)
    (h : get_pip net σ i = (.ok v, σ₁)) :
    σ₁.cache.lookup (cachePath σ i "pip.json") = some (.json v) ∧
    σ₁.cacheDir = σ.cacheDir := by
  simp only [get_pip] at h
  have hreg := get_pip_fetch_region net σ i (cachePath σ i "pip.json")
  cases hF : get_pip_fetch net σ i (cachePath σ i "pip.json") with
  | mk r σ2 =>
  rw [hF] at h
  rw [hF] at hreg
  cases r with
  | error e => exact absurd h (by simp)
  | ok u =>
    rw [Prod.mk.injEq] at h
    obtain ⟨hread, hσ⟩ := h
    subst hσ
    exact ⟨readJsonFile_ok _ (cachePath σ i "pip.json") v hread, hreg.2.2⟩

theorem get_exists_ok (net : Net) (σ : St) (i : String) (v : Json) (σ₁ : St)
    (h : get_exists net σ i = (.ok v, σ₁)) :
    readExistsFile σ₁ (cachePath σ i "exists.json") = .ok v ∧
    (∃ d, σ₁.cache.lookup (cachePath σ i "exists.json") = some d) ∧
    σ₁.cacheDir = σ.cacheDir := by
  simp only [get_exists] at h
  have hreg := get_exists_fetch_region net σ i (cachePath σ i "exists.json")
  cases hF : get_exists_fetch net σ i (cachePath σ i "exists.json") with
  | mk r σ2 =>
  rw [hF] at h
  rw [hF] at hreg
  cases r with
  | error e => exact absurd h (by simp)
  | ok u =>
    rw [Prod.mk.injEq] at h
    obtain ⟨hread, hσ⟩ := h
    subst hσ
    exact ⟨hread,
      readExistsFile_ok_lookup _ (cachePath σ i "exists.json") v hread,
      hreg.2.2⟩

theorem get_thumbnail_ok (net : Net) (σ : St) (i u : String) (v : String)
    (σ₁ : St) (h : get_thumbnail net σ i u = (.ok v, σ₁)) :
    v = cachePath σ i "thumbnail.jpg" ∧
    (∃ d, σ₁.cache.lookup (cachePath σ i "thumbnail.jpg") = some d) ∧
    σ₁.cacheDir = σ.cacheDir := by
  simp only [get_thumbnail] at h
  cases hl : σ.cache.lookup (cachePath σ i "thumbnail.jpg") with
  | some d =>
    rw [hl] at h
    rw [Prod.mk.injEq] at h
    obtain ⟨hv, hσ⟩ := h
    injection hv with hv'
    subst hσ
    exact ⟨hv'.symm, ⟨d, hl⟩, rfl⟩
  | none =>
    rw [hl] at h
    dsimp only at h
    have hreg := _get_region net u [] .getDefault σ
    cases hG : _get net u [] .getDefault σ with
    | mk rg σ2 =>
    rw [hG] at h
    rw [hG] at hreg
    cases rg with
    | error e => exact absurd h (by simp)
    | ok d =>
      dsimp only at h
      rw [Prod.mk.injEq] at h
      obtain ⟨hv, hσ⟩ := h
      injection hv with hv'
      refine ⟨hv'.symm, ?_, ?_⟩
      · rw [← hσ]
        exact ⟨d, lookup_alistSet_self σ2.cache (cachePath σ i "thumbnail.jpg") d⟩
      · rw [← hσ]
        exact hreg.2.2

theorem get_model_fetch_ok_cache (net : Net) (σ : St) (i p : String)
    (u : Unit) (σ' : St) (h : get_model_fetch net σ i p = (.ok u, σ')) :
    ∃ d, σ'.cache.lookup p = some d := by
  simp only [get_model_fetch] at h
  cases hE : get_exists net σ i with
  | mk r σ2 =>
  rw [hE] at h
  cases r with
  | error e => exact absurd h (by simp)
  | ok v =>
    dsimp only at h
    by_cases hv : pyTruthy v
    · rw [if_pos hv] at h
      cases hJ : _get_json net (modelMetaUrl σ i) [] none σ2 with
      | mk rj σ3 =>
      rw [hJ] at h
      cases rj with
      | error e => exact absurd h (by simp)
      | ok j =>
        dsimp only at h
        cases hU : jsonGet j "modelUrl" with
        | error e => rw [hU] at h; exact absurd h (by simp)
        | ok uv =>
          rw [hU] at h
          cases uv with
          | str us =>
            dsimp only at h
            cases hB : _get net us [] .getDefault σ3 with
            | mk rb σ4 =>
            rw [hB] at h
            cases rb with
            | error e => exact absurd h (by simp)
            | ok d =>
              dsimp only at h
              rw [Prod.mk.injEq] at h
              obtain ⟨-, hσ⟩ := h
              rw [← hσ]
              exact ⟨d, lookup_alistSet_self σ4.cache p d⟩
          | null => exact absurd h (by simp)
          | bool b => exact absurd h (by simp)
          | num n => exact absurd h (by simp)
          | arr xs => exact absurd h (by simp)
          | obj o => exact absurd h (by simp)
    · rw [if_neg hv] at h
      exact absurd h (by simp)

theorem get_model_ok (net : Net) (σ : St) (i : String) (v : String) (σ₁ : St)
    (h : get_model net σ i = (.ok v, σ₁)) :
    v = cachePath σ i "model.glb" ∧
    (∃ d, σ₁.cache.lookup (cachePath σ i "model.glb") = some d) ∧
    σ₁.cacheDir = σ.cacheDir := by
  simp only [get_model] at h
  cases hl : σ.cache.lookup (cachePath σ i "model.glb") with
  | some d =>
    rw [hl] at h
    rw [Prod.mk.injEq] at h
    obtain ⟨hv, hσ⟩ := h
    injection hv with hv'
    subst hσ
    exact ⟨hv'.symm, ⟨d, hl⟩, rfl⟩
  | none =>
    rw [hl] at h
    dsimp only at h
    have hreg := get_model_fetch_region net σ i (cachePath σ i "model.glb")
    cases hF : get_model_fetch net σ i (cachePath σ i "model.glb") with
    | mk r σ2 =>
    rw [hF] at h
    rw [hF] at hreg
    cases r with
    | error e => exact absurd h (by simp)
    | ok u =>
      rw [Prod.mk.injEq] at h
      obtain ⟨hv, hσ⟩ := h
      injection hv with hv'
      subst hσ
      exact ⟨hv'.symm,
        get_model_fetch_ok_cache net σ i (cachePath σ i "model.glb") u _ hF,
        hreg.2.2⟩

theorem cachePath_congr (σ σ₁ : St) (i f : String)
    (h : σ₁.cacheDir = σ.cacheDir) : cachePath σ₁ i f = cachePath σ i f := by
  simp only [cachePath, h]

/-- C5: cache idempotence — if a first call of `get_pip`, `get_exists`,
`get_thumbnail` or `get_model` succeeds, an immediately repeated call
returns the same value and leaves the state exactly unchanged (so the
second call issues no network request at all: it is served from the cache
written by the first). -/
theorem cache_idempotent :
    (∀ (net : Net) (σ : St) (i : String) (v : Json) (σ₁ : St),
      get_pip net σ i = (.ok v, σ₁) → get_pip net σ₁ i = (.ok v, σ₁)) ∧
    (∀ (net : Net) (σ : St) (i : String) (v : Json) (σ₁ : St),
      get_exists net σ i = (.ok v, σ₁) → get_exists net σ₁ i = (.ok v, σ₁)) ∧
    (∀ (net : Net) (σ : St) (i u : String) (v : String) (σ₁ : St),
      get_thumbnail net σ i u = (.ok v, σ₁) →
      get_thumbnail net σ₁ i u = (.ok v, σ₁)) ∧
    (∀ (net : Net) (σ : St) (i : String) (v : String) (σ₁ : St),
      get_model net σ i = (.ok v, σ₁) → get_model net σ₁ i = (.ok v, σ₁)) := by
  refine ⟨?_, ?_, ?_, ?_⟩
  · intro net σ i v σ₁ h
    obtain ⟨hcache, hcd⟩ := get_pip_ok net σ i v σ₁ h
    simp only [get_pip, cachePath_congr σ σ₁ i "pip.json" hcd]
    simp only [get_pip_fetch, hcache]
    simp only [readJsonFile, hcache]
    rfl
  · intro net σ i v σ₁ h
    obtain ⟨hread, ⟨d, hd⟩, hcd⟩ := get_exists_ok net σ i v σ₁ h
    simp only [get_exists, cachePath_congr σ σ₁ i "exists.json" hcd]
    simp only [get_exists_fetch, hd]
    rw [hread]
  · intro net σ i u v σ₁ h
    obtain ⟨hv, ⟨d, hd⟩, hcd⟩ := get_thumbnail_ok net σ i u v σ₁ h
    simp only [get_thumbnail, cachePath_congr σ σ₁ i "thumbnail.jpg" hcd, hd]
    rw [hv]
  · intro net σ i v σ₁ h
    obtain ⟨hv, ⟨d, hd⟩, hcd⟩ := get_model_ok net σ i v σ₁ h
    simp only [get_model, cachePath_congr σ σ₁ i "model.glb" hcd, hd]
    rw [hv]

/-- C5 witness: concrete repeated calls of the four operations are served
from the cache written by the first call, with identical results. -/
theorem cache_idempotent_witness :
    get_pip netTrue (get_pip netTrue st0 "12345678").2 "12345678" =
      (.ok (.obj [("exists", .bool true)]), (get_pip netTrue st0 "12345678").2) ∧
    get_exists netTrue (get_exists netTrue st0 "12345678").2 "12345678" =
      (.ok (.bool true), (get_exists netTrue st0 "12345678").2) ∧
    get_thumbnail netTrue (get_thumbnail netTrue st0 "9" "https://img").2
        "9" "https://img" =
      (.ok "./cache/9/thumbnail.jpg",
       (get_thumbnail netTrue st0 "9" "https://img").2) ∧
    get_model netModel (get_model netModel st0 "7").2 "7" =
      (.ok "./cache/7/model.glb", (get_model netModel st0 "7").2) :=
  ⟨cache_idempotent.1 netTrue st0 "12345678" (.obj [("exists", .bool true)])
     (get_pip netTrue st0 "12345678").2 rfl,
   cache_idempotent.2.1 netTrue st0 "12345678" (.bool true)
     (get_exists netTrue st0 "12345678").2 rfl,
   cache_idempotent.2.2.1 netTrue st0 "9" "https://img"
     "./cache/9/thumbnail.jpg" (get_thumbnail netTrue st0 "9" "https://img").2 rfl,
   cache_idempotent.2.2.2 netModel st0 "7" "./cache/7/model.glb"
     (get_model netModel st0 "7").2 rfl⟩

/-! ## The search request -/

theorem _get_json_state (net : Net) (url : String)
    (params : List (String × String)) (ha : Option (List (String × String)))
    (σ : St) : (_get_json net url params ha σ).2
      = (_get net url params (jsonHeadersSrc ha) σ).2 := by
  simp only [_get_json]
  cases hG : _get net url params (jsonHeadersSrc ha) σ with
  | mk r σ' =>
  cases r with
  | error e => rfl
  | ok d =>
    dsimp only
    cases json_loads d with
    | error e => rfl
    | ok j => rfl

theorem get_exists_fetch_requests_ext (net : Net) (σ : St) (i p : String) :
    ∃ more, (get_exists_fetch net σ i p).2.requests = σ.requests ++ more := by
  simp only [get_exists_fetch]
  cases hl : σ.cache.lookup p with
  | some d => exact ⟨[], by simp⟩
  | none =>
    obtain ⟨hdr, hreq⟩ := _get_requests net (existsUrl σ i) [] .getDefault σ
    cases hG : _get net (existsUrl σ i) [] .getDefault σ with
    | mk r σ2 =>
    rw [hG] at hreq
    cases r with
    | error e => exact ⟨_, hreq⟩
    | ok d => exact ⟨_, hreq⟩

theorem get_exists_requests_ext (net : Net) (σ : St) (i : String) :
    ∃ more, (get_exists net σ i).2.requests = σ.requests ++ more := by
  simp only [get_exists]
  obtain ⟨more, hmore⟩ :=
    get_exists_fetch_requests_ext net σ i (cachePath σ i "exists.json")
  cases hF : get_exists_fetch net σ i (cachePath σ i "exists.json") with
  | mk r σ2 =>
  rw [hF] at hmore
  cases r with
  | error e => exact ⟨more, hmore⟩
  | ok u => exact ⟨more, hmore⟩

theorem processItems_requests_ext (net : Net) (items : List Json) :
    ∀ (σ : St) (acc : List Json),
      ∃ more, (processItems net σ items acc).2.requests = σ.requests ++ more := by
  induction items with
  | nil => intro σ acc; exact ⟨[], by simp [processItems]⟩
  | cons i rest ih =>
    intro σ acc
    simp only [processItems]
    cases jsonGet i "product" with
    | error e => exact ⟨[], by simp⟩
    | ok p =>
      dsimp only
      cases checkFields p with
      | error e => exact ⟨[], by simp⟩
      | ok valid =>
        dsimp only
        cases valid with
        | false => exact ih σ acc
        | true =>
          rw [if_pos rfl]
          cases hItem : jsonGet p "itemNo" with
          | error e => exact ⟨[], by simp⟩
          | ok iv =>
            cases iv with
            | str itemNo =>
              dsimp only
              obtain ⟨m1, hm1⟩ := get_exists_requests_ext net σ itemNo
              cases hE : get_exists net σ itemNo with
              | mk r σ2 =>
              rw [hE] at hm1
              cases r with
              | error e => exact ⟨m1, hm1⟩
              | ok v =>
                dsimp only
                cases hT : pyTruthy v with
                | true =>
                  rw [if_pos rfl]
                  cases mkEntry p with
                  | error e => exact ⟨m1, hm1⟩
                  | ok entry =>
                    obtain ⟨m2, hm2⟩ := ih σ2 (acc ++ [entry])
                    exact ⟨m1 ++ m2, by rw [hm2, hm1, List.append_assoc]⟩
                | false =>
                  rw [if_neg (by simp)]
                  cases jsonGet p "name" with
                  | error e => exact ⟨m1, hm1⟩
                  | ok _ =>
                    obtain ⟨m2, hm2⟩ := ih σ2 acc
                    exact ⟨m1 ++ m2, by rw [hm2, hm1, List.append_assoc]⟩
            | null => exact ⟨[], by simp⟩
            | bool b => exact ⟨[], by simp⟩
            | num n => exact ⟨[], by simp⟩
            | arr xs => exact ⟨[], by simp⟩
            | obj o => exact ⟨[], by simp⟩

/-- C6: `search` issues its request with exactly the parameters the code
builds: the first request it puts on the wire targets the search endpoint
with `searchParams q`, where for a valid item identifier `size` is `"1"`
and `autocorrect` is absent, and otherwise `size` is `"24"`,
`autocorrect` is `"true"` and `subcategories-style` is
`"tree-navigation"`. -/
theorem search_request_params :
    ∀ (net : Net) (σ : St) (q : String),
      (∃ hdr rest, (search net σ q).2.requests =
        σ.requests ++ ⟨searchUrl σ, searchParams q, hdr⟩ :: rest) ∧
      (if is_item_no q then
        (searchParams q).lookup "size" = some "1" ∧
        (searchParams q).lookup "autocorrect" = none
      else
        (searchParams q).lookup "size" = some "24" ∧
        (searchParams q).lookup "autocorrect" = some "true" ∧
        (searchParams q).lookup "subcategories-style" =
          some "tree-navigation") := by
  intro net σ q
  constructor
  · simp only [search]
    obtain ⟨hdr, hreq⟩ :=
      _get_requests net (searchUrl σ) (searchParams q) (jsonHeadersSrc none) σ
    have hst := _get_json_state net (searchUrl σ) (searchParams q) none σ
    cases hG : _get_json net (searchUrl σ) (searchParams q) none σ with
    | mk r σ' =>
    rw [hG] at hst
    have hreq' : σ'.requests =
        σ.requests ++ [⟨searchUrl σ, searchParams q, hdr⟩] := by
      rw [← hst] at hreq
      exact hreq
    cases r with
    | error e => exact ⟨hdr, [], by simpa using hreq'⟩
    | ok j =>
      dsimp only
      cases searchItems j with
      | error e => exact ⟨hdr, [], by simpa using hreq'⟩
      | ok items =>
        cases items with
        | arr xs =>
          obtain ⟨more, hmore⟩ := processItems_requests_ext net xs σ' []
          refine ⟨hdr, more, ?_⟩
          rw [hmore, hreq', List.append_assoc]
          rfl
        | null => exact ⟨hdr, [], by simpa using hreq'⟩
        | bool b => exact ⟨hdr, [], by simpa using hreq'⟩
        | num n => exact ⟨hdr, [], by simpa using hreq'⟩
        | str s => exact ⟨hdr, [], by simpa using hreq'⟩
        | obj o => exact ⟨hdr, [], by simpa using hreq'⟩
  · by_cases h : is_item_no q
    · rw [if_pos h]
      simp only [searchParams]
      rw [if_pos h]
      exact ⟨rfl, rfl⟩
    · rw [if_neg h]
      simp only [searchParams]
      rw [if_neg h]
      exact ⟨rfl, rfl, rfl⟩

end IkeaLib
